import Mathlib

/-!
Candidate dashboard: record store and shortlist logic.

A shallow embedding of `backend/server.js` (the flat-file record store) and of the
pure state logic of `frontend/src/App.js` (view derivation, shortlist manager).

Modelling conventions:

* a JavaScript property that may be missing (`undefined`) is an `Option`;
* `x || []` on a list-valued property is `orEmpty`, `x || ""` on a string is `orBlank`;
* strict equality `===` on ids is decidable equality on `Option String`;
* React state setters `setShortlist (prev => ...)` are functions from the previous
  state to the next one;
* `console.log`, the clipboard and rendering are effects that do not feed back into
  the state and are left out; the `alert` of `toggleShortlist` is recorded apart.
-/

namespace CandidateDashboard

/-! ## Data model -/

/-- One entry of `work_experiences`. -/
structure Experience where
  role : String
  company : String
deriving DecidableEq, Repr

/-- A candidate record; a shortlist entry has the same shape. -/
structure Candidate where
  id : Option String
  name : Option String
  work_availability : Option (List String)
  work_experiences : Option (List Experience)
  created_at : Option String
  reason : Option String
deriving DecidableEq, Repr

/-- The JavaScript idiom `xs || []` for a possibly missing array. -/
def orEmpty {α : Type} : Option (List α) → List α
  | some xs => xs
  | none => []

/-- The JavaScript idiom `s || ""` for a possibly missing string. -/
def orBlank : Option String → String
  | some s => s
  | none => ""

/-- The JavaScript idiom `xs?.length || 0`. -/
def lengthOrZero {α : Type} : Option (List α) → Nat
  | some xs => xs.length
  | none => 0

/-- `String.prototype.includes` on character sequences: `q` occurs in `s` as a
contiguous block. -/
def includes (s q : List Char) : Bool :=
  s.tails.any (fun t => q.isPrefixOf t)

/-! ## Shortlist manager (`App.js`, lines 150-183 and 347-357) -/

/-- The alternatives of the regular expression in `autoReason`. -/
def seniorKeywords : List String :=
  ["senior", "lead", "principal", "manager", "architect"]

/-- `/senior|lead|principal|manager|architect/i.test(s)`: some alternative occurs in
`s`, letters compared without regard to ASCII case. Without the `u` flag the `i`
flag never identifies a non-ASCII character with an ASCII letter, so folding `A-Z`
to `a-z` is exact for these alternatives. -/
def seniorRegexTest (s : String) : Bool :=
  seniorKeywords.any (fun k => includes (s.toList.map Char.toLower) k.toList)

/-- `autoReason(candidate)`. -/
def autoReason (candidate : Candidate) : String :=
  let exp := lengthOrZero candidate.work_experiences
  let hasSeniorKeyword :=
    (orEmpty candidate.work_experiences).any (fun e => seniorRegexTest e.role)
  if hasSeniorKeyword then "Senior experience and leadership potential"
  else if exp ≥ 5 then "Highly experienced across multiple roles"
  else if exp ≥ 3 then "Experienced candidate with relevant roles"
  else if (orEmpty candidate.work_availability).contains "full-time" then
    "Available full-time and promising"
  else "Promising candidate"

/-- `toggleShortlist(candidate)`: the state update passed to `setShortlist`. -/
def toggleShortlist (prev : List Candidate) (candidate : Candidate) : List Candidate :=
  let found := prev.find? (fun x => x.id == candidate.id)
  if found.isSome then prev.filter (fun x => x.id != candidate.id)
  else if prev.length ≥ 5 then prev
  else prev ++ [{ candidate with reason := some (autoReason candidate) }]

/-- The `alert` raised by `toggleShortlist`, if any. -/
def toggleShortlistAlert (prev : List Candidate) (candidate : Candidate) : Option String :=
  let found := prev.find? (fun x => x.id == candidate.id)
  if found.isSome then none
  else if prev.length ≥ 5 then some "Shortlist limit: 5 candidates"
  else none

/-- `updateReason(candidateId, text)`. -/
def updateReason (prev : List Candidate) (candidateId : Option String) (text : String) :
    List Candidate :=
  prev.map (fun c => if c.id == candidateId then { c with reason := some text } else c)

/-- `removeFromShortlist(candidateId)`. -/
def removeFromShortlist (prev : List Candidate) (candidateId : Option String) :
    List Candidate :=
  prev.filter (fun c => c.id != candidateId)

/-- The Quick Note button: `r` is what `prompt` returned (`none` when the dialog was
cancelled, in which case the state setter is not called). -/
def quickNote (prev : List Candidate) (c : Candidate) (r : Option String) : List Candidate :=
  match r with
  | none => prev
  | some r =>
    let found := prev.find? (fun x => x.id == c.id)
    if found.isSome then
      prev.map (fun x => if x.id == c.id then { x with reason := some r } else x)
    else if prev.length ≥ 5 then prev
    else prev ++ [{ c with reason := some r }]

/-- The user actions that change the shortlist. -/
inductive ShortlistOp where
  | toggle (c : Candidate)
  | updateReason (candidateId : Option String) (text : String)
  | remove (candidateId : Option String)
  | quickNote (c : Candidate) (r : Option String)

/-- One user action applied to the shortlist. -/
def applyOp (s : List Candidate) : ShortlistOp → List Candidate
  | .toggle c => toggleShortlist s c
  | .updateReason i t => updateReason s i t
  | .remove i => removeFromShortlist s i
  | .quickNote c r => quickNote s c r

/-- A finite sequence of user actions, applied left to right. -/
def runOps (s : List Candidate) (ops : List ShortlistOp) : List Candidate :=
  ops.foldl applyOp s

/-- The shortlist invariant: at most 5 entries, no two with the same id. -/
def ShortlistInv (s : List Candidate) : Prop :=
  s.length ≤ 5 ∧ (s.map (fun x => x.id)).Nodup

instance (s : List Candidate) : Decidable (ShortlistInv s) := by
  unfold ShortlistInv; infer_instance

/-! ## View derivation (`App.js`, lines 131-148)

`String.prototype.toLowerCase` is a library function of the host; the view
derivation is parametric in it (`toLowerCase`). -/

/-- The callback of `submissions.filter(...)`. An entry of the fetched array may be
`null` (`none`); `filterAvailability` and `query` are the two UI strings, the empty
string meaning "not set". -/
def keepEntry (toLowerCase : String → String) (filterAvailability query : String)
    (c : Option Candidate) : Bool :=
  match c with
  | none => false
  | some c =>
    if filterAvailability ≠ "" ∧
        ¬ (orEmpty c.work_availability).contains filterAvailability then false
    else if query ≠ "" then
      let q := toLowerCase query
      if includes (toLowerCase (orBlank c.name)).toList q.toList then true
      else if (orEmpty c.work_experiences).any
          (fun e => includes (toLowerCase (e.role ++ " " ++ e.company)).toList q.toList)
        then true
      else false
    else true

/-- The derived list `filtered`. -/
def filtered (toLowerCase : String → String) (filterAvailability query : String)
    (submissions : List (Option Candidate)) : List (Option Candidate) :=
  submissions.filter (keepEntry toLowerCase filterAvailability query)

/-- `c.work_experiences?.length || 0`. -/
def experienceCount (c : Candidate) : Nat :=
  lengthOrZero c.work_experiences

/-- The comparator `(a, b) => (b.work_experiences?.length || 0) -
(a.work_experiences?.length || 0)`. -/
def compareExperience (a b : Candidate) : Int :=
  (experienceCount b : Int) - (experienceCount a : Int)

/-- `Array.prototype.sort(cmp)` on a copy: ECMAScript requires a stable sort, and for
a consistent comparator its result is the stable arrangement in which `a` stays in
front of `b` whenever `cmp(a, b) ≤ 0`. Insertion from the right realises it. -/
def arraySort {α : Type} (cmp : α → α → Int) (xs : List α) : List α :=
  xs.insertionSort (fun a b => cmp a b ≤ 0)

/-- The derived list `sorted`; the entries of `filtered` are records (the filter
drops `null`). -/
def sorted (sortKey : String) (filteredList : List Candidate) : List Candidate :=
  if sortKey = "experience" then arraySort compareExperience filteredList
  else filteredList

/-! ## Export (`App.js`, lines 197-208) -/

/-- The template text of a possibly missing name: a missing property prints as
`undefined`. -/
def nameText : Option String → String
  | some s => s
  | none => "undefined"

/-- `c.work_availability?.join(", ") || "N/A"`. -/
def availabilityText (tags : Option (List String)) : String :=
  match tags with
  | none => "N/A"
  | some ts => if ", ".intercalate ts = "" then "N/A" else ", ".intercalate ts

/-- The three lines the `forEach` callback pushes for the entry `c` at index `i`. -/
def entryLines (i : Nat) (c : Candidate) : List String :=
  [toString (i + 1) ++ ". " ++ nameText c.name ++ " — " ++
      availabilityText c.work_availability,
   "   Reason: " ++ orBlank c.reason,
   ""]

/-- The array `lines` built by `exportEmailText`: the initial array literal, three
lines per entry, the closing line. -/
def emailLines (shortlist : List Candidate) : List String :=
  ["Subject: Hiring Shortlist — 5 Candidates", "", "Hi team,", "",
    "I recommend we hire the following 5 candidates:", ""] ++
  (shortlist.enum.map (fun p => entryLines p.1 p.2)).flatten ++
  ["— End of shortlist"]

/-- The text `exportEmailText` copies to the clipboard: `lines.join("\n")`. -/
def exportEmailText (shortlist : List Candidate) : String :=
  "\n".intercalate (emailLines shortlist)

/-! ## Record store (`server.js`)

The data file is modelled by what `JSON.parse(raw || "[]")` makes of its content.
`JSON.stringify` followed by `JSON.parse` is taken to return the array it was given.
File-system faults (the `catch` branches for a failing read or write) are outside the
model: `existsSync`, `readFileSync` and `writeFileSync` succeed. -/

/-- The state of `form-submissions.json`. -/
inductive DataFile where
  /-- The file does not exist. -/
  | absent
  /-- The content is rejected by `JSON.parse`. -/
  | malformed
  /-- The content parses to a JSON value that is not an array. -/
  | nonArray
  /-- The content parses to this array of records (the empty file counts as `[]`). -/
  | records (submissions : List Candidate)
deriving DecidableEq, Repr

/-- The body of an HTTP response. -/
inductive Body where
  | error (error : String)
  | list (submissions : List Candidate)
  | other
  | saved (message : String) (candidate : Candidate)
deriving DecidableEq, Repr

/-- An HTTP response: status code and JSON body. -/
structure Response where
  status : Nat
  body : Body
deriving DecidableEq, Repr

/-- `ensureDataFile()`: a missing file is created with content `[]`. -/
def ensureDataFile : DataFile → DataFile
  | .absent => .records []
  | f => f

/-- The list of records a data file holds: what the tolerant read of the `POST`
handler (`try { JSON.parse ... if (!Array.isArray ...) } catch { [] }`) yields. -/
def tolerantRead : DataFile → List Candidate
  | .records submissions => submissions
  | _ => []

/-- JavaScript truthiness of a possibly missing string. -/
def truthy : Option String → Bool
  | some s => s ≠ ""
  | none => false

/-- `GET /api/submissions`. -/
def getSubmissions (file : DataFile) : DataFile × Response :=
  let file := ensureDataFile file
  match file with
  | .records submissions => (file, ⟨200, .list submissions⟩)
  | .nonArray => (file, ⟨200, .other⟩)
  | _ => (file, ⟨500, .error "Failed to read submissions file"⟩)

/-- `POST /api/submissions`. `body` is `req.body` (`none` when there is none), `now` is
the reading of `Date.now()`, `isoNow` the reading of the clock taken by `new Date()`,
in milliseconds, and `toISOString` the host formatting of such a reading. -/
def postSubmission (toISOString : Nat → String) (now isoNow : Nat) (file : DataFile)
    (body : Option Candidate) : DataFile × Response :=
  let file := ensureDataFile file
  match body with
  | none => (file, ⟨400, .error "Candidate object with `name` is required"⟩)
  | some newCandidate =>
    if ¬ truthy newCandidate.name then
      (file, ⟨400, .error "Candidate object with `name` is required"⟩)
    else
      let submissions := tolerantRead file
      let newCandidate := { newCandidate with
        id := some (toString now)
        created_at := some (toISOString isoNow)
        reason := some "" }
      (.records (submissions ++ [newCandidate]),
        ⟨200, .saved "Candidate added successfully" newCandidate⟩)

/-- `PUT /api/submissions/:id`. `body` is `req.body` (`none` when there is none, which
makes the destructuring throw), its content the `reason` property. -/
def putSubmission (file : DataFile) (id : String) (body : Option (Option String)) :
    DataFile × Response :=
  let file := ensureDataFile file
  match body with
  | none => (file, ⟨500, .error "Failed to update reason"⟩)
  | some reason =>
    match file with
    | .records submissions =>
      match submissions.findIdx? (fun c => c.id == some id) with
      | none => (file, ⟨404, .error "Candidate not found"⟩)
      | some idx =>
        let submissions := submissions.modify (fun c => { c with reason := reason }) idx
        match submissions[idx]? with
        | some c => (.records submissions, ⟨200, .saved "Reason updated" c⟩)
        | none => (file, ⟨500, .error "Failed to update reason"⟩)
    | _ => (file, ⟨500, .error "Failed to update reason"⟩)

/-- A run of `POST` requests on one store: each request carries its body and the two
clock readings its handler takes. Returns the final file and the responses in order. -/
def postAll (toISOString : Nat → String) (file : DataFile) :
    List (Option Candidate × Nat × Nat) → DataFile × List Response
  | [] => (file, [])
  | (body, now, isoNow) :: rest =>
    let r := postSubmission toISOString now isoNow file body
    let rs := postAll toISOString r.1 rest
    (rs.1, r.2 :: rs.2)

/-- The ids of the records a `POST` run returned, in order. -/
def createdIds : List Response → List (Option String)
  | [] => []
  | ⟨_, .saved _ candidate⟩ :: rest => candidate.id :: createdIds rest
  | _ :: rest => createdIds rest

/-! ## Specification-side definitions -/

/-- Toggle as the specification words it: remove when the id is present, reject when
five entries are held, append a clone with the suggested reason otherwise. -/
def toggleShortlistSpec (s : List Candidate) (c : Candidate) : List Candidate :=
  if ∃ e ∈ s, e.id = c.id then s.filter (fun e => decide (e.id ≠ c.id))
  else if 5 ≤ s.length then s
  else s ++ [{ id := c.id, name := c.name, work_availability := c.work_availability,
               work_experiences := c.work_experiences, created_at := c.created_at,
               reason := some (autoReason c) }]

/-- A role matches a keyword case-insensitively: the keyword occurs as a contiguous
block of the role once the letters of the role are folded to lower case. -/
def MatchesKeyword (role : String) : Prop :=
  ∃ k ∈ seniorKeywords, k.toList <:+: role.toList.map Char.toLower

instance (role : String) : Decidable (MatchesKeyword role) := by
  unfold MatchesKeyword; infer_instance

/-- A record passes both filters of the specification: the selected availability tag,
if any, is among its tags; the query, if any, occurs lower-cased in its lower-cased
name or in the lower-cased "role company" text of one of its experiences. -/
def PassesFilters (toLowerCase : String → String) (tag query : String) (c : Candidate) :
    Prop :=
  (tag ≠ "" → tag ∈ orEmpty c.work_availability) ∧
  (query ≠ "" →
    (toLowerCase query).toList <:+: (toLowerCase (orBlank c.name)).toList ∨
    ∃ e ∈ orEmpty c.work_experiences,
      (toLowerCase query).toList <:+: (toLowerCase (e.role ++ " " ++ e.company)).toList)

instance (toLowerCase : String → String) (tag query : String) (c : Candidate) :
    Decidable (PassesFilters toLowerCase tag query c) := by
  unfold PassesFilters; infer_instance

/-- The specification's filter on an entry of the snapshot: only records pass. -/
def passesEntry (toLowerCase : String → String) (tag query : String) :
    Option Candidate → Bool
  | none => false
  | some c => decide (PassesFilters toLowerCase tag query c)

/-- The value of a decimal numeral read from its most significant digit. -/
def decimalValue (cs : List Char) : Nat :=
  cs.foldl (fun acc c => acc * 10 + (c.toNat - 48)) 0

/-- A request body is a valid create: a record with a present, non-empty name. -/
def ValidCreate (body : Option Candidate) : Prop :=
  ∃ c n, body = some c ∧ c.name = some n ∧ n ≠ ""

/-- ASCII lower-casing, used to run the view derivation on sample data. -/
def asciiLower (s : String) : String :=
  String.mk (s.toList.map Char.toLower)

/-- The body of the specification's create scenario. -/
def ada : Candidate :=
  { id := none, name := some "Ada Lovelace", work_availability := some ["full-time"],
    work_experiences := some [⟨"Engineer", "Acme"⟩], created_at := none, reason := none }

/-- A formatting of clock readings for sample runs. -/
def sampleISO (t : Nat) : String :=
  "T+" ++ toString t ++ "ms"

/-! ## Sample data -/

/-- A record with the given id and roles, nothing else set. -/
def sample (id : String) (roles : List String) : Candidate :=
  { id := some id, name := some ("Candidate " ++ id), work_availability := some [],
    work_experiences := some (roles.map (fun r => ⟨r, "Acme"⟩)),
    created_at := none, reason := none }

/-- A full shortlist of five entries. -/
def fullShortlist : List Candidate :=
  [sample "1" [], sample "2" [], sample "3" [], sample "4" [], sample "5" []]

/-- A run of actions that tries to add a sixth and a seventh entry, edits and removes. -/
def sampleOps : List ShortlistOp :=
  [.toggle (sample "6" []), .quickNote (sample "7" []) (some "note"),
   .updateReason (some "2") "good", .remove (some "3"), .toggle (sample "6" []),
   .toggle (sample "1" [])]

/-- Sample snapshot: two records and a `null` entry. -/
def sampleSnapshot : List (Option Candidate) :=
  [some (sample "1" ["Engineer"]), none, some ada]

/-- Sample filtered list with experience counts 1, 2, 1, 0, 2. -/
def sampleFiltered : List Candidate :=
  [sample "a" ["x"], sample "b" ["x", "y"], sample "c" ["z"], sample "d" [],
   sample "e" ["u", "v"]]

/-- Two valid creates handled within the same millisecond. -/
def sameMillisecond : List (Option Candidate × Nat × Nat) :=
  [(some ada, 1700000000000, 1700000000000),
   (some { ada with name := some "Grace Hopper" }, 1700000000000, 1700000000000)]

/-- Three valid creates at successive clock readings. -/
def successiveCreates : List (Option Candidate × Nat × Nat) :=
  [(some ada, 10, 10), (some ada, 11, 12), (some { ada with name := some "Grace" }, 15, 15)]

/-- The number of lines of a text: its newline-separated segments, one more than it
has newline characters. -/
def lineCount (text : String) : Nat :=
  text.toList.count '\n' + 1

/-- A shortlist entry whose name, availability tags and reason hold no line break. -/
def NoLineBreak (c : Candidate) : Prop :=
  '\n' ∉ (orBlank c.name).toList ∧
  (∀ t ∈ orEmpty c.work_availability, '\n' ∉ t.toList) ∧
  '\n' ∉ (orBlank c.reason).toList

instance (c : Candidate) : Decidable (NoLineBreak c) := by
  unfold NoLineBreak; infer_instance

/-- A shortlist of two entries, one with a tag and a reason, one with neither. -/
def shortlistOfTwo : List Candidate :=
  [{ ada with id := some "1", reason := some "Strong engineer" }, sample "2" []]

/-- A second shortlist of two entries, with two tags on the first. -/
def anotherShortlistOfTwo : List Candidate :=
  [{ ada with id := some "7", work_availability := some ["full-time", "part-time"] },
   { ada with id := some "8", name := none, work_availability := none }]

/-! ## Theorems -/

/-- The executable substring test agrees with the infix relation on lists. -/
theorem includes_iff (s q : List Char) : includes s q = true ↔ q <:+: s := by
  unfold includes
  rw [List.any_eq_true, List.infix_iff_prefix_suffix]
  constructor
  · rintro ⟨t, ht, hq⟩
    exact ⟨t, List.isPrefixOf_iff_prefix.mp hq, (List.mem_tails t s).mp ht⟩
  · rintro ⟨t, hq, ht⟩
    exact ⟨t, (List.mem_tails t s).mpr ht, List.isPrefixOf_iff_prefix.mpr hq⟩

/-- The regular-expression test is the keyword match of the specification. -/
theorem seniorRegexTest_iff (role : String) :
    seniorRegexTest role = true ↔ MatchesKeyword role := by
  unfold seniorRegexTest MatchesKeyword
  rw [List.any_eq_true]
  constructor
  · rintro ⟨k, hk, h⟩
    exact ⟨k, hk, (includes_iff _ _).mp h⟩
  · rintro ⟨k, hk, h⟩
    exact ⟨k, hk, (includes_iff _ _).mpr h⟩

/-- Whether `find` returns an entry is whether some entry has the id. -/
theorem find_isSome_iff (s : List Candidate) (i : Option String) :
    (s.find? (fun x => x.id == i)).isSome = true ↔ ∃ e ∈ s, e.id = i := by
  rw [List.find?_isSome]
  simp

/-- Removing by id keeps the invariant. -/
theorem inv_filter (s : List Candidate) (p : Candidate → Bool) (h : ShortlistInv s) :
    ShortlistInv (s.filter p) := by
  refine ⟨le_trans (List.length_filter_le p s) h.1, ?_⟩
  exact h.2.sublist ((List.filter_sublist s).map _)

/-- Rewriting reasons in place keeps the invariant. -/
theorem inv_map_reason (s : List Candidate) (i : Option String) (r : Option String)
    (h : ShortlistInv s) :
    ShortlistInv (s.map (fun x => if x.id == i then { x with reason := r } else x)) := by
  have hid : (s.map (fun x => if x.id == i then { x with reason := r } else x)).map
      (fun x => x.id) = s.map (fun x => x.id) := by
    rw [List.map_map]
    apply List.map_congr_left
    intro a _
    simp only [Function.comp]
    split <;> rfl
  refine ⟨by simpa using h.1, ?_⟩
  rw [hid]
  exact h.2

/-- Appending an entry with a fresh id below the cap keeps the invariant. -/
theorem inv_append (s : List Candidate) (e : Candidate) (h : ShortlistInv s)
    (hlen : ¬ s.length ≥ 5) (hfresh : ¬ ∃ x ∈ s, x.id = e.id) :
    ShortlistInv (s ++ [e]) := by
  refine ⟨by simp; omega, ?_⟩
  rw [List.map_append, List.nodup_append]
  refine ⟨h.2, by simp, ?_⟩
  intro a ha hb
  simp only [List.map_cons, List.map_nil, List.mem_singleton] at hb
  rw [List.mem_map] at ha
  obtain ⟨x, hx, hxa⟩ := ha
  exact hfresh ⟨x, hx, hxa.trans hb⟩

/-- Every single user action keeps the invariant. -/
theorem inv_applyOp (s : List Candidate) (op : ShortlistOp) (h : ShortlistInv s) :
    ShortlistInv (applyOp s op) := by
  cases op with
  | toggle c =>
    simp only [applyOp, toggleShortlist]
    split
    · exact inv_filter s _ h
    · rename_i hf
      split
      · exact h
      · rename_i hl
        exact inv_append s _ h hl (fun hx => hf ((find_isSome_iff s c.id).mpr hx))
  | updateReason i t => exact inv_map_reason s i (some t) h
  | remove i => exact inv_filter s _ h
  | quickNote c r =>
    cases r with
    | none => exact h
    | some r =>
      simp only [applyOp, quickNote]
      split
      · exact inv_map_reason s c.id (some r) h
      · rename_i hf
        split
        · exact h
        · rename_i hl
          exact inv_append s _ h hl (fun hx => hf ((find_isSome_iff s c.id).mpr hx))

/-- C1: from any shortlist with at most 5 entries and pairwise distinct ids, every
finite sequence of shortlist actions (toggle, update reason, remove, quick note)
leads to a shortlist that again has at most 5 entries and pairwise distinct ids. -/
theorem shortlist_invariant (s : List Candidate) (ops : List ShortlistOp)
    (h : ShortlistInv s) : ShortlistInv (runOps s ops) := by
  induction ops generalizing s with
  | nil => exact h
  | cons op ops ih => exact ih (applyOp s op) (inv_applyOp s op h)

/-- Witness for C1: a full shortlist of five stays within the invariant under a run
that attempts two additions beyond the cap. -/
theorem shortlist_invariant_witness :
    ShortlistInv fullShortlist ∧ ShortlistInv (runOps fullShortlist sampleOps) :=
  ⟨by decide, shortlist_invariant fullShortlist sampleOps (by decide)⟩

/-- C2: `toggleShortlist` is the three-case definition of the specification: with the
id present every entry of that id is removed and the rest kept in order; otherwise
with 5 or more entries the shortlist is returned unchanged; otherwise exactly one
entry is appended, the candidate with its reason set to `autoReason`. -/
theorem toggleShortlist_eq_spec (s : List Candidate) (c : Candidate) :
    toggleShortlist s c = toggleShortlistSpec s c := by
  unfold toggleShortlist toggleShortlistSpec
  by_cases hx : ∃ e ∈ s, e.id = c.id
  · have hf := (find_isSome_iff s c.id).mpr hx
    simp only [hf, if_true, if_pos hx]
    congr 1
    funext x
    by_cases h : x.id = c.id <;> simp [h]
  · have hf : ¬ (s.find? (fun x => x.id == c.id)).isSome = true :=
      fun h => hx ((find_isSome_iff s c.id).mp h)
    simp only [if_neg hf, if_neg hx, ge_iff_le]

/-- The first rule fires exactly when some role matches a keyword. -/
theorem hasSeniorKeyword_iff (c : Candidate) :
    (orEmpty c.work_experiences).any (fun e => seniorRegexTest e.role) = true ↔
      ∃ e ∈ orEmpty c.work_experiences, MatchesKeyword e.role := by
  rw [List.any_eq_true]
  constructor
  · rintro ⟨e, he, h⟩
    exact ⟨e, he, (seniorRegexTest_iff _).mp h⟩
  · rintro ⟨e, he, h⟩
    exact ⟨e, he, (seniorRegexTest_iff _).mpr h⟩

/-- C3: `autoReason` follows the priority order, first match wins: a role matching a
keyword case-insensitively gives the seniority text; else 5 or more experiences give
the "highly experienced" text; else 3 or more the "experienced" text; else full-time
availability the "available" text; else the default. A candidate whose only role is
"Senior Engineer" gets the first text and one with 4 experiences and no keyword
match the third. -/
theorem autoReason_priority (c : Candidate) :
    ((∃ e ∈ orEmpty c.work_experiences, MatchesKeyword e.role) →
        autoReason c = "Senior experience and leadership potential") ∧
    ((¬ ∃ e ∈ orEmpty c.work_experiences, MatchesKeyword e.role) →
      (5 ≤ lengthOrZero c.work_experiences →
        autoReason c = "Highly experienced across multiple roles") ∧
      (3 ≤ lengthOrZero c.work_experiences → lengthOrZero c.work_experiences < 5 →
        autoReason c = "Experienced candidate with relevant roles") ∧
      (lengthOrZero c.work_experiences < 3 →
        "full-time" ∈ orEmpty c.work_availability →
        autoReason c = "Available full-time and promising") ∧
      (lengthOrZero c.work_experiences < 3 →
        "full-time" ∉ orEmpty c.work_availability →
        autoReason c = "Promising candidate")) ∧
    ((∃ company, c.work_experiences = some [⟨"Senior Engineer", company⟩]) →
        autoReason c = "Senior experience and leadership potential") ∧
    ((¬ ∃ e ∈ orEmpty c.work_experiences, MatchesKeyword e.role) →
      lengthOrZero c.work_experiences = 4 →
      "full-time" ∉ orEmpty c.work_availability →
        autoReason c = "Experienced candidate with relevant roles") := by
  have first : (∃ e ∈ orEmpty c.work_experiences, MatchesKeyword e.role) →
      autoReason c = "Senior experience and leadership potential" := by
    intro h
    have hk := (hasSeniorKeyword_iff c).mpr h
    simp only [autoReason, hk, if_true]
  have third : (¬ ∃ e ∈ orEmpty c.work_experiences, MatchesKeyword e.role) →
      3 ≤ lengthOrZero c.work_experiences → lengthOrZero c.work_experiences < 5 →
      autoReason c = "Experienced candidate with relevant roles" := by
    intro h h3 h5
    have hk : ¬ (orEmpty c.work_experiences).any (fun e => seniorRegexTest e.role) = true :=
      fun hk => h ((hasSeniorKeyword_iff c).mp hk)
    have h5n : ¬ lengthOrZero c.work_experiences ≥ 5 := by omega
    have h3p : lengthOrZero c.work_experiences ≥ 3 := h3
    simp only [autoReason, if_neg hk, if_neg h5n, if_pos h3p]
  refine ⟨first, ?_, ?_, ?_⟩
  · intro h
    have hk : ¬ (orEmpty c.work_experiences).any (fun e => seniorRegexTest e.role) = true :=
      fun hk => h ((hasSeniorKeyword_iff c).mp hk)
    refine ⟨?_, third h, ?_, ?_⟩
    · intro h5
      have h5p : lengthOrZero c.work_experiences ≥ 5 := h5
      simp only [autoReason, if_neg hk, if_pos h5p]
    · intro h3 hft
      have h5n : ¬ lengthOrZero c.work_experiences ≥ 5 := by omega
      have h3n : ¬ lengthOrZero c.work_experiences ≥ 3 := by omega
      have hc : (orEmpty c.work_availability).contains "full-time" = true :=
        by simpa using hft
      simp only [autoReason, if_neg hk, if_neg h5n, if_neg h3n, hc, if_true]
    · intro h3 hft
      have h5n : ¬ lengthOrZero c.work_experiences ≥ 5 := by omega
      have h3n : ¬ lengthOrZero c.work_experiences ≥ 3 := by omega
      have hc : ¬ (orEmpty c.work_availability).contains "full-time" = true :=
        fun hc => hft (by simpa using hc)
      simp only [autoReason, if_neg hk, if_neg h5n, if_neg h3n, if_neg hc]
  · rintro ⟨company, hw⟩
    apply first
    refine ⟨⟨"Senior Engineer", company⟩, by simp [hw, orEmpty], ?_⟩
    rw [← seniorRegexTest_iff]
    show seniorRegexTest "Senior Engineer" = true
    decide
  · intro h h4 _
    exact third h (by omega) (by omega)

/-- Witness for C3: the two candidates the specification names, evaluated. -/
theorem autoReason_priority_witness :
    autoReason (sample "1" ["Senior Engineer"]) =
        "Senior experience and leadership potential" ∧
    autoReason (sample "2" ["Engineer", "Analyst", "Tester", "Designer"]) =
        "Experienced candidate with relevant roles" :=
  ⟨(autoReason_priority (sample "1" ["Senior Engineer"])).2.2.1 ⟨"Acme", rfl⟩,
   (autoReason_priority (sample "2" ["Engineer", "Analyst", "Tester", "Designer"])).2.2.2
     (by decide) (by decide) (by decide)⟩

/-! ### Record store -/

/-- Bootstrapping the file does not change the records it holds. -/
theorem tolerantRead_ensureDataFile (file : DataFile) :
    tolerantRead (ensureDataFile file) = tolerantRead file := by
  cases file <;> rfl

/-- C4: a create whose body is missing, or whose name is missing or the empty string,
is answered with status 400 and the error "Candidate object with `name` is
required"; the list of records held by the data file is what it was, and an
existing file is left exactly as it was (a missing one is only bootstrapped). -/
theorem post_invalid_name (toISOString : Nat → String) (now isoNow : Nat)
    (file : DataFile) (body : Option Candidate)
    (h : body = none ∨ ∃ c, body = some c ∧ (c.name = none ∨ c.name = some "")) :
    (postSubmission toISOString now isoNow file body).2 =
        ⟨400, .error "Candidate object with `name` is required"⟩ ∧
    tolerantRead (postSubmission toISOString now isoNow file body).1 = tolerantRead file ∧
    (postSubmission toISOString now isoNow file body).1 = ensureDataFile file ∧
    (file ≠ .absent → (postSubmission toISOString now isoNow file body).1 = file) := by
  have key : postSubmission toISOString now isoNow file body =
      (ensureDataFile file, ⟨400, .error "Candidate object with `name` is required"⟩) := by
    rcases h with h | ⟨c, hb, hn⟩
    · subst h; rfl
    · subst hb
      have ht : truthy c.name = false := by
        rcases hn with hn | hn <;> rw [hn] <;> rfl
      simp [postSubmission, ht]
  rw [key]
  refine ⟨rfl, tolerantRead_ensureDataFile file, rfl, ?_⟩
  intro hf
  cases file <;> first | rfl | exact absurd rfl hf

/-- Witness for C4: a body with an empty name against a store of one record. -/
theorem post_invalid_name_witness :
    (postSubmission sampleISO 7 7 (.records [ada]) (some { ada with name := some "" })).2 =
        ⟨400, .error "Candidate object with `name` is required"⟩ ∧
    (postSubmission sampleISO 7 7 (.records [ada]) (some { ada with name := some "" })).1 =
        .records [ada] :=
  have h := post_invalid_name sampleISO 7 7 (.records [ada])
    (some { ada with name := some "" }) (Or.inr ⟨_, rfl, Or.inr rfl⟩)
  ⟨h.1, h.2.2.2 (by decide)⟩

/-- C5: a create with a present, non-empty name persists the previous list followed by
one new record and returns that record: id the decimal text of the clock reading,
`created_at` the ISO text of the clock reading, reason the empty string, and name,
availability and experiences as submitted. -/
theorem post_valid (toISOString : Nat → String) (now isoNow : Nat)
    (L : List Candidate) (c : Candidate) (h : ValidCreate (some c)) :
    postSubmission toISOString now isoNow (.records L) (some c) =
      (.records (L ++ [{ id := some (toString now), name := c.name,
                          work_availability := c.work_availability,
                          work_experiences := c.work_experiences,
                          created_at := some (toISOString isoNow), reason := some "" }]),
       ⟨200, .saved "Candidate added successfully"
              { id := some (toString now), name := c.name,
                work_availability := c.work_availability,
                work_experiences := c.work_experiences,
                created_at := some (toISOString isoNow), reason := some "" }⟩) := by
  obtain ⟨c0, n, hc, hn, hne⟩ := h
  cases hc
  have ht : truthy c.name = true := by
    rw [hn]; simp [truthy, hne]
  simp [postSubmission, ensureDataFile, tolerantRead, ht]

/-- Witness for C5: the create scenario of the specification on a store of one
record. -/
theorem post_valid_witness :
    postSubmission sampleISO 1700000000000 1700000000001 (.records [sample "1" []])
        (some ada) =
      (.records [sample "1" [], { ada with id := some "1700000000000",
                                            created_at := some "T+1700000000001ms",
                                            reason := some "" }],
       ⟨200, .saved "Candidate added successfully"
              { ada with id := some "1700000000000",
                         created_at := some "T+1700000000001ms", reason := some "" }⟩) :=
  post_valid sampleISO 1700000000000 1700000000001 [sample "1" []] ada
    ⟨ada, "Ada Lovelace", rfl, rfl, by decide⟩

/-- No index is found when no record has the id. -/
theorem findIdx_none_of_unknown (L : List Candidate) (id : String)
    (h : ∀ c ∈ L, c.id ≠ some id) :
    L.findIdx? (fun c => c.id == some id) = none := by
  rw [List.findIdx?_eq_none_iff]
  intro c hc
  simpa using h c hc

/-- C6: an update of the reason for an id that no record of the persisted list has is
answered with status 404 and the error "Candidate not found", whatever the reason,
and the persisted list is unchanged; on a missing file, which holds no record, the
answer is the same and the list stays empty. -/
theorem put_unknown_id (L : List Candidate) (id : String) (reason : Option String)
    (h : ∀ c ∈ L, c.id ≠ some id) :
    putSubmission (.records L) id (some reason) =
        (.records L, ⟨404, .error "Candidate not found"⟩) ∧
    (putSubmission .absent id (some reason)).2 = ⟨404, .error "Candidate not found"⟩ ∧
    tolerantRead (putSubmission .absent id (some reason)).1 = tolerantRead .absent := by
  refine ⟨?_, ?_, ?_⟩
  · simp [putSubmission, ensureDataFile, findIdx_none_of_unknown L id h]
  · simp [putSubmission, ensureDataFile]
  · simp [putSubmission, ensureDataFile, tolerantRead]

/-- Witness for C6: the update scenario of the specification on a store of two
records. -/
theorem put_unknown_id_witness :
    putSubmission (.records [sample "1" [], sample "2" []]) "unknown-id" (some (some "x")) =
      (.records [sample "1" [], sample "2" []], ⟨404, .error "Candidate not found"⟩) :=
  (put_unknown_id [sample "1" [], sample "2" []] "unknown-id" (some "x") (by decide)).1

/-! ### View derivation -/

/-- The filter callback decides the specification's two filters. -/
theorem keepEntry_eq_passesEntry (toLowerCase : String → String) (tag query : String)
    (oc : Option Candidate) :
    keepEntry toLowerCase tag query oc = passesEntry toLowerCase tag query oc := by
  cases oc with
  | none => rfl
  | some c =>
    rw [Bool.eq_iff_iff]
    simp only [keepEntry, passesEntry, PassesFilters, decide_eq_true_eq]
    have hmem : (orEmpty c.work_availability).contains tag = true ↔
        tag ∈ orEmpty c.work_availability := by simp
    have hany : (orEmpty c.work_experiences).any
          (fun e => includes (toLowerCase (e.role ++ " " ++ e.company)).toList
            (toLowerCase query).toList) = true ↔
        ∃ e ∈ orEmpty c.work_experiences,
          (toLowerCase query).toList <:+:
            (toLowerCase (e.role ++ " " ++ e.company)).toList := by
      rw [List.any_eq_true]
      constructor
      · rintro ⟨e, he, h⟩
        exact ⟨e, he, (includes_iff _ _).mp h⟩
      · rintro ⟨e, he, h⟩
        exact ⟨e, he, (includes_iff _ _).mpr h⟩
    split
    · rename_i h1
      constructor
      · intro h; cases h
      · rintro ⟨h, _⟩
        exact absurd (hmem.mpr (h h1.1)) h1.2
    · rename_i h1
      have htag : tag ≠ "" → tag ∈ orEmpty c.work_availability := by
        intro h
        by_contra hc
        exact h1 ⟨h, fun hcon => hc (hmem.mp hcon)⟩
      split
      · rename_i h2
        split
        · rename_i h3
          exact ⟨fun _ => ⟨htag, fun _ => Or.inl ((includes_iff _ _).mp h3)⟩, fun _ => rfl⟩
        · rename_i h3
          split
          · rename_i h4
            exact ⟨fun _ => ⟨htag, fun _ => Or.inr (hany.mp h4)⟩, fun _ => rfl⟩
          · rename_i h4
            constructor
            · intro h; cases h
            · rintro ⟨_, h⟩
              rcases h h2 with h | h
              · exact absurd ((includes_iff _ _).mpr h) h3
              · exact absurd (hany.mpr h) h4
      · rename_i h2
        exact ⟨fun _ => ⟨htag, fun h => absurd h h2⟩, fun _ => rfl⟩

/-- C7: the filtered view is the snapshot filtered, in snapshot order, by the two
filters of the specification (availability tag if selected, lower-cased query in the
lower-cased name or in the lower-cased "role company" of some experience); with no
tag and no query every record of the snapshot is kept. -/
theorem filtered_eq_spec (toLowerCase : String → String) (tag query : String)
    (submissions : List (Option Candidate)) (records : List Candidate) :
    filtered toLowerCase tag query submissions =
        submissions.filter (passesEntry toLowerCase tag query) ∧
    filtered toLowerCase "" "" submissions = submissions.filter Option.isSome ∧
    filtered toLowerCase "" "" (records.map some) = records.map some := by
  have h1 : ∀ t q, keepEntry toLowerCase t q = passesEntry toLowerCase t q :=
    fun t q => funext (keepEntry_eq_passesEntry toLowerCase t q)
  have h2 : keepEntry toLowerCase "" "" = Option.isSome := by
    funext oc
    cases oc <;> simp [keepEntry]
  refine ⟨by rw [filtered, h1], by rw [filtered, h2], ?_⟩
  rw [filtered, h2, List.filter_eq_self]
  intro a ha
  rw [List.mem_map] at ha
  obtain ⟨c, _, rfl⟩ := ha
  rfl

/-- The filter on a sample snapshot: the tag "full-time" and the query "ACME" keep the
one record that has the tag and an experience at Acme; the `null` entry is dropped. -/
theorem filtered_sample :
    filtered asciiLower "full-time" "ACME" sampleSnapshot = [some ada] ∧
    filtered asciiLower "" "" sampleSnapshot = [some (sample "1" ["Engineer"]), some ada] := by
  constructor <;> decide

/-- C9: filtering keeps the relative order of the snapshot (the result is a sublist of
it) and is idempotent for a fixed tag and query. -/
theorem filtered_sublist_idempotent (toLowerCase : String → String) (tag query : String)
    (submissions : List (Option Candidate)) :
    (filtered toLowerCase tag query submissions).Sublist submissions ∧
    filtered toLowerCase tag query (filtered toLowerCase tag query submissions) =
      filtered toLowerCase tag query submissions := by
  refine ⟨List.filter_sublist submissions, ?_⟩
  simp [filtered, List.filter_filter]

/-- Inserting into an arranged list does not disturb the entries of one experience
count: the inserted record lands in front of those with the same count. -/
theorem filter_orderedInsert (k : Nat) (a : Candidate) (m : List Candidate) :
    (m.orderedInsert (fun a b => compareExperience a b ≤ 0) a).filter
        (fun c => decide (experienceCount c = k)) =
      (a :: m).filter (fun c => decide (experienceCount c = k)) := by
  induction m with
  | nil => rfl
  | cons b m ih =>
    rw [List.orderedInsert]
    split
    · rfl
    · rename_i hab
      have hne : experienceCount b ≠ experienceCount a := by
        intro h
        apply hab
        simp [compareExperience, h]
      rw [List.filter_cons, ih]
      by_cases ha : experienceCount a = k
      · have hb : ¬ experienceCount b = k := fun hb => hne (hb.trans ha.symm)
        simp [List.filter_cons, ha, hb]
      · simp [List.filter_cons, ha]

/-- The sort keeps, for every experience count, the records of that count in their
original order. -/
theorem filter_arraySort (k : Nat) (l : List Candidate) :
    (arraySort compareExperience l).filter (fun c => decide (experienceCount c = k)) =
      l.filter (fun c => decide (experienceCount c = k)) := by
  unfold arraySort
  induction l with
  | nil => rfl
  | cons a l ih =>
    rw [List.insertionSort, filter_orderedInsert, List.filter_cons, ih, List.filter_cons]

/-- The sort arranges by non-increasing experience count. -/
theorem arraySort_sorted (l : List Candidate) :
    (arraySort compareExperience l).Pairwise
      (fun a b => experienceCount b ≤ experienceCount a) := by
  haveI : IsTotal Candidate (fun a b => compareExperience a b ≤ 0) :=
    ⟨fun a b => by simp only [compareExperience]; omega⟩
  haveI : IsTrans Candidate (fun a b => compareExperience a b ≤ 0) :=
    ⟨fun a b c => by simp only [compareExperience]; omega⟩
  have h := List.sorted_insertionSort (fun a b => compareExperience a b ≤ 0) l
  refine List.Pairwise.imp ?_ h
  intro a b hab
  simp only [compareExperience] at hab
  omega

/-- C8: with sort mode "experience" the sorted view is a permutation of the filtered
list, arranged by non-increasing count of experiences (a missing list counting 0),
and stable: for every count, the records of that count come in the order they had in
the filtered list. With any other sort mode the sorted view is the filtered list. -/
theorem sorted_experience_stable (l : List Candidate) :
    (sorted "experience" l).Perm l ∧
    (sorted "experience" l).Pairwise (fun a b => experienceCount b ≤ experienceCount a) ∧
    (∀ k : Nat, (sorted "experience" l).filter (fun c => decide (experienceCount c = k)) =
        l.filter (fun c => decide (experienceCount c = k))) ∧
    (∀ c : Candidate, c.work_experiences = none → experienceCount c = 0) ∧
    (∀ sortKey : String, sortKey ≠ "experience" → sorted sortKey l = l) := by
  have hs : sorted "experience" l = arraySort compareExperience l := by
    simp [sorted]
  rw [hs]
  refine ⟨List.perm_insertionSort _ l, arraySort_sorted l, fun k => filter_arraySort k l,
    ?_, ?_⟩
  · intro c hc
    simp [experienceCount, lengthOrZero, hc]
  · intro sortKey hk
    simp [sorted, hk]

/-- Witness for C8: a list with counts 1, 2, 1, 0, 2 is arranged as 2, 2, 1, 1, 0 with
ties in their original order, and is returned as it is under the sort mode "". -/
theorem sorted_experience_stable_witness :
    sorted "experience" sampleFiltered =
        [sample "b" ["x", "y"], sample "e" ["u", "v"], sample "a" ["x"], sample "c" ["z"],
         sample "d" []] ∧
    sorted "" sampleFiltered = sampleFiltered :=
  ⟨by decide, (sorted_experience_stable sampleFiltered).2.2.2.2 "" (by decide)⟩

/-! ### Identifiers of created records -/

/-- The digit character of a value below ten reads back as that value. -/
theorem digitChar_value (k : Nat) (h : k < 10) : (Nat.digitChar k).toNat - 48 = k := by
  interval_cases k <;> rfl

/-- Reading a numeral with one more digit at the end. -/
theorem decimalValue_append (xs : List Char) (d : Char) :
    decimalValue (xs ++ [d]) = decimalValue xs * 10 + (d.toNat - 48) := by
  simp [decimalValue, List.foldl_append]

/-- The digit accumulator of the printing loop is a suffix of its output. -/
theorem toDigitsCore_append (fuel n : Nat) (ds : List Char) :
    Nat.toDigitsCore 10 fuel n ds = Nat.toDigitsCore 10 fuel n [] ++ ds := by
  induction fuel generalizing n ds with
  | zero => simp [Nat.toDigitsCore]
  | succ f ih =>
    simp only [Nat.toDigitsCore]
    split
    · simp
    · rw [ih, ih (n / 10) [Nat.digitChar (n % 10)]]
      simp

/-- The decimal digits printed for a number read back as that number. -/
theorem decimalValue_toDigitsCore (fuel n : Nat) (h : n < fuel) :
    decimalValue (Nat.toDigitsCore 10 fuel n []) = n := by
  induction fuel generalizing n with
  | zero => omega
  | succ f ih =>
    simp only [Nat.toDigitsCore]
    split
    · have hn : n < 10 := by omega
      simp [decimalValue, digitChar_value n hn, Nat.mod_eq_of_lt hn]
    · rw [toDigitsCore_append, decimalValue_append, ih (n / 10) (by omega),
        digitChar_value _ (Nat.mod_lt _ (by norm_num))]
      omega

/-- Different numbers have different decimal texts. -/
theorem toString_nat_injective (a b : Nat) (h : toString a = toString b) : a = b := by
  have hl : Nat.toDigits 10 a = Nat.toDigits 10 b := by
    have := congrArg String.toList h
    simpa [toString, Nat.repr] using this
  have ha := decimalValue_toDigitsCore (a + 1) a (by omega)
  have hb := decimalValue_toDigitsCore (b + 1) b (by omega)
  unfold Nat.toDigits at hl
  rw [hl] at ha
  omega

/-- A valid create on any data file: the record is appended to the list the tolerant
read yields and returned with the id printed from the clock reading. -/
theorem create_on_any_file (toISOString : Nat → String) (now isoNow : Nat)
    (file : DataFile) (body : Option Candidate) (h : ValidCreate body) :
    ∃ r : Candidate, r.id = some (toString now) ∧
      postSubmission toISOString now isoNow file body =
        (.records (tolerantRead file ++ [r]),
         ⟨200, .saved "Candidate added successfully" r⟩) := by
  obtain ⟨c, n, hc, hn, hne⟩ := h
  subst hc
  have ht : truthy c.name = true := by
    rw [hn]; simp [truthy, hne]
  refine ⟨{ c with id := some (toString now), created_at := some (toISOString isoNow),
                   reason := some "" }, rfl, ?_⟩
  simp [postSubmission, tolerantRead_ensureDataFile, ht]

/-- In a run of valid creates the returned ids are the decimal texts of the clock
readings, and they are appended in that order to the ids the file held. -/
theorem postAll_ids (toISOString : Nat → String) (file : DataFile)
    (reqs : List (Option Candidate × Nat × Nat)) (hvalid : ∀ r ∈ reqs, ValidCreate r.1) :
    createdIds (postAll toISOString file reqs).2 =
        reqs.map (fun r => some (toString r.2.1)) ∧
    (tolerantRead (postAll toISOString file reqs).1).map (fun c => c.id) =
        (tolerantRead file).map (fun c => c.id) ++
          reqs.map (fun r => some (toString r.2.1)) := by
  induction reqs generalizing file with
  | nil => simp [postAll, createdIds]
  | cons req rest ih =>
    obtain ⟨body, now, isoNow⟩ := req
    obtain ⟨r, hid, hpost⟩ := create_on_any_file toISOString now isoNow file body
      (hvalid _ (List.mem_cons_self _ _))
    have ih2 := ih (.records (tolerantRead file ++ [r]))
      (fun q hq => hvalid q (List.mem_cons_of_mem _ hq))
    simp only [postAll, hpost, createdIds, List.map_cons]
    refine ⟨by rw [ih2.1, hid], ?_⟩
    rw [ih2.2]
    simp [tolerantRead, hid]

/-- C10, as amended: in a run of valid creates whose `Date.now()` readings are pairwise
distinct, the returned ids are pairwise distinct; and when the ids the store held
were pairwise distinct and none is the text of one of the readings, the ids of the
persisted list are pairwise distinct after the run. -/
theorem created_ids_distinct (toISOString : Nat → String) (file : DataFile)
    (reqs : List (Option Candidate × Nat × Nat)) (hvalid : ∀ r ∈ reqs, ValidCreate r.1)
    (hclock : (reqs.map (fun r => r.2.1)).Nodup) :
    (createdIds (postAll toISOString file reqs).2).Nodup ∧
    (((tolerantRead file).map (fun c => c.id)).Nodup →
      (∀ r ∈ reqs, some (toString r.2.1) ∉ (tolerantRead file).map (fun c => c.id)) →
      ((tolerantRead (postAll toISOString file reqs).1).map (fun c => c.id)).Nodup) := by
  obtain ⟨h1, h2⟩ := postAll_ids toISOString file reqs hvalid
  have hnew : (reqs.map (fun r => some (toString r.2.1))).Nodup := by
    have hinj : Function.Injective (fun t : Nat => some (toString t)) := by
      intro a b hab
      exact toString_nat_injective a b (Option.some.inj hab)
    have := hclock.map hinj
    rwa [List.map_map] at this
  rw [h1, h2]
  refine ⟨hnew, ?_⟩
  intro hold hfresh
  rw [List.nodup_append]
  refine ⟨hold, hnew, ?_⟩
  intro a ha hb
  rw [List.mem_map] at hb
  obtain ⟨r, hr, rfl⟩ := hb
  exact hfresh r hr ha

/-- Witness for C10 as amended: three creates at readings 10, 11, 15 on a missing
file. -/
theorem created_ids_distinct_witness :
    (createdIds (postAll sampleISO .absent successiveCreates).2).Nodup ∧
    ((tolerantRead (postAll sampleISO .absent successiveCreates).1).map
      (fun c => c.id)).Nodup :=
  have h := created_ids_distinct sampleISO .absent successiveCreates
    (by
      intro r hr
      simp only [successiveCreates, List.mem_cons, List.mem_singleton, List.not_mem_nil,
        or_false] at hr
      rcases hr with rfl | rfl | rfl
      · exact ⟨_, "Ada Lovelace", rfl, rfl, by decide⟩
      · exact ⟨_, "Ada Lovelace", rfl, rfl, by decide⟩
      · exact ⟨_, "Grace", rfl, rfl, by decide⟩)
    (by decide)
  ⟨h.1, h.2 (by decide) (by decide)⟩

/-- Counterexample to C10 as stated: two valid creates handled within the same
millisecond are both accepted and return the same id, and the persisted list then
holds two records with that id. -/
theorem created_ids_collide :
    (∀ r ∈ sameMillisecond, ValidCreate r.1) ∧
    createdIds (postAll sampleISO .absent sameMillisecond).2 =
        [some "1700000000000", some "1700000000000"] ∧
    ¬ (createdIds (postAll sampleISO .absent sameMillisecond).2).Nodup ∧
    ¬ ((tolerantRead (postAll sampleISO .absent sameMillisecond).1).map
        (fun c => c.id)).Nodup := by
  refine ⟨?_, by decide, by decide, by decide⟩
  intro r hr
  simp only [sameMillisecond, List.mem_cons, List.mem_singleton, List.not_mem_nil,
    or_false] at hr
  rcases hr with rfl | rfl
  · exact ⟨_, "Ada Lovelace", rfl, rfl, by decide⟩
  · exact ⟨_, "Grace Hopper", rfl, rfl, by decide⟩

/-! ### Listing the store -/

/-- C11, the code at the failing input: on a data file whose content does not parse
as JSON, `GET /api/submissions` does not succeed with the empty list; it answers with
status 500 and the error "Failed to read submissions file". The read of the `POST`
handler treats the same content as the empty list: a valid create on that file
succeeds and persists the new record alone. -/
theorem get_malformed_not_empty :
    (getSubmissions .malformed).2 = ⟨500, .error "Failed to read submissions file"⟩ ∧
    (getSubmissions .malformed).2 ≠ ⟨200, .list []⟩ ∧
    tolerantRead .malformed = [] ∧
    postSubmission sampleISO 7 8 .malformed (some ada) =
      (.records [{ ada with id := some "7", created_at := some "T+8ms",
                            reason := some "" }],
       ⟨200, .saved "Candidate added successfully"
              { ada with id := some "7", created_at := some "T+8ms",
                         reason := some "" }⟩) := by
  refine ⟨by decide, by decide, rfl, by decide⟩

/-! ### Export of the shortlist -/

/-- The characters of a concatenation. -/
theorem toList_append (s t : String) : (s ++ t).toList = s.toList ++ t.toList := by
  cases s; cases t; rfl

/-- Occurrences of a character in the text the joining loop builds. -/
theorem count_intercalate_go (c : Char) (sep : String) (rest : List String) (acc : String) :
    (String.intercalate.go acc sep rest).toList.count c =
      acc.toList.count c +
        (rest.map (fun a => sep.toList.count c + a.toList.count c)).sum := by
  induction rest generalizing acc with
  | nil => simp [String.intercalate.go]
  | cons a rest ih =>
    rw [String.intercalate.go, ih, toList_append, toList_append]
    simp [List.count_append]
    omega

/-- Occurrences of a character in a joined non-empty array of strings. -/
theorem count_intercalate (c : Char) (sep : String) (a : String) (rest : List String) :
    (sep.intercalate (a :: rest)).toList.count c =
      a.toList.count c +
        (rest.map (fun a => sep.toList.count c + a.toList.count c)).sum := by
  rw [String.intercalate, count_intercalate_go]

/-- Joining with a newline lines that hold none gives a text of as many lines. -/
theorem lineCount_intercalate (lines : List String) (hne : lines ≠ [])
    (h : ∀ l ∈ lines, l.toList.count '\n' = 0) :
    lineCount ("\n".intercalate lines) = lines.length := by
  cases lines with
  | nil => exact absurd rfl hne
  | cons a rest =>
    have hsum : ∀ xs : List String, (∀ l ∈ xs, l.toList.count '\n' = 0) →
        (xs.map (fun a => "\n".toList.count '\n' + a.toList.count '\n')).sum =
          xs.length := by
      intro xs
      induction xs with
      | nil => intro _; rfl
      | cons x xs ih =>
        intro hx
        rw [List.map_cons, List.sum_cons, ih (fun l hl => hx l (List.mem_cons_of_mem _ hl)),
          hx x (List.mem_cons_self _ _)]
        simp [List.length_cons]
        omega
    rw [lineCount, count_intercalate, h a (List.mem_cons_self _ _),
      hsum rest (fun l hl => h l (List.mem_cons_of_mem _ hl))]
    simp

/-- A decimal digit is not a newline. -/
theorem digitChar_ne_newline (k : Nat) (h : k < 10) : Nat.digitChar k ≠ '\n' := by
  interval_cases k <;> decide

/-- The printing loop produces no newline. -/
theorem toDigitsCore_no_newline (fuel n : Nat) (ds : List Char)
    (h : ∀ c ∈ ds, c ≠ '\n') : ∀ c ∈ Nat.toDigitsCore 10 fuel n ds, c ≠ '\n' := by
  induction fuel generalizing n ds with
  | zero => simpa [Nat.toDigitsCore] using h
  | succ f ih =>
    have hd : ∀ c ∈ Nat.digitChar (n % 10) :: ds, c ≠ '\n' := by
      intro c hc
      rcases List.mem_cons.mp hc with rfl | hc
      · exact digitChar_ne_newline _ (Nat.mod_lt _ (by norm_num))
      · exact h c hc
    simp only [Nat.toDigitsCore]
    split
    · exact hd
    · exact ih _ _ hd

/-- The decimal text of a number holds no newline. -/
theorem toString_nat_no_newline (n : Nat) : (toString n).toList.count '\n' = 0 := by
  rw [List.count_eq_zero]
  intro hmem
  have hd : (toString n).toList = Nat.toDigits 10 n := rfl
  rw [hd] at hmem
  exact toDigitsCore_no_newline _ _ [] (by simp) _ hmem rfl

/-- The availability text holds no newline when the tags hold none. -/
theorem availabilityText_no_newline (tags : Option (List String))
    (h : ∀ t ∈ orEmpty tags, '\n' ∉ t.toList) :
    (availabilityText tags).toList.count '\n' = 0 := by
  cases tags with
  | none => decide
  | some ts =>
    have hj : (", ".intercalate ts).toList.count '\n' = 0 := by
      cases ts with
      | nil => decide
      | cons a rest =>
        have hz : ∀ xs : List String, (∀ t ∈ xs, '\n' ∉ t.toList) →
            (xs.map (fun a => ", ".toList.count '\n' + a.toList.count '\n')).sum = 0 := by
          intro xs
          induction xs with
          | nil => intro _; rfl
          | cons x xs ih =>
            intro hx
            rw [List.map_cons, List.sum_cons,
              ih (fun t ht => hx t (List.mem_cons_of_mem _ ht)),
              List.count_eq_zero.mpr (hx x (List.mem_cons_self _ _))]
            decide
        rw [count_intercalate, List.count_eq_zero.mpr (h a (List.mem_cons_self _ _)),
          hz rest (fun t ht => h t (List.mem_cons_of_mem _ ht))]
    simp only [availabilityText]
    split
    · decide
    · exact hj

/-- The three lines of an entry hold no newline when the entry holds none. -/
theorem entryLines_no_newline (i : Nat) (c : Candidate) (h : NoLineBreak c) :
    ∀ l ∈ entryLines i c, l.toList.count '\n' = 0 := by
  obtain ⟨hname, htags, hreason⟩ := h
  have hn : (nameText c.name).toList.count '\n' = 0 := by
    cases hc : c.name with
    | none => decide
    | some n =>
      rw [hc] at hname
      exact List.count_eq_zero.mpr hname
  have hr : (orBlank c.reason).toList.count '\n' = 0 := List.count_eq_zero.mpr hreason
  have ha := availabilityText_no_newline c.work_availability htags
  have h1 : ". ".toList.count '\n' = 0 := by decide
  have h2 : " — ".toList.count '\n' = 0 := by decide
  have h3 : "   Reason: ".toList.count '\n' = 0 := by decide
  intro l hl
  simp only [entryLines, List.mem_cons, List.mem_singleton, List.not_mem_nil, or_false] at hl
  rcases hl with rfl | rfl | rfl
  · simp only [toList_append, List.count_append, toString_nat_no_newline, hn, ha, h1, h2]
  · simp only [toList_append, List.count_append, hr, h3]
  · decide

/-- The lines pushed for the entries: three per entry, none with a newline. -/
theorem entries_lines (shortlist : List Candidate) (k : Nat)
    (h : ∀ c ∈ shortlist, NoLineBreak c) :
    (((shortlist.enumFrom k).map (fun p => entryLines p.1 p.2)).flatten).length =
        3 * shortlist.length ∧
    ∀ l ∈ ((shortlist.enumFrom k).map (fun p => entryLines p.1 p.2)).flatten,
      l.toList.count '\n' = 0 := by
  induction shortlist generalizing k with
  | nil => exact ⟨rfl, fun l hl => by simp at hl⟩
  | cons c rest ih =>
    obtain ⟨hlen, hno⟩ := ih (k + 1) (fun x hx => h x (List.mem_cons_of_mem _ hx))
    simp only [List.enumFrom_cons, List.map_cons, List.flatten_cons]
    refine ⟨?_, ?_⟩
    · rw [List.length_append, hlen]
      simp [entryLines]
      omega
    · intro l hl
      rcases List.mem_append.mp hl with hl | hl
      · exact entryLines_no_newline k c (h c (List.mem_cons_self _ _)) l hl
      · exact hno l hl

/-- The exported text of any shortlist without line breaks has 6 lines of heading, 3
per entry and 1 closing line. -/
theorem lineCount_exportEmailText (shortlist : List Candidate)
    (h : ∀ c ∈ shortlist, NoLineBreak c) :
    lineCount (exportEmailText shortlist) = 6 + 3 * shortlist.length + 1 := by
  obtain ⟨hlen, hno⟩ := entries_lines shortlist 0 h
  rw [exportEmailText, lineCount_intercalate]
  · simp only [emailLines, List.enum, List.length_append, hlen]
    simp
  · simp [emailLines]
  · intro l hl
    simp only [emailLines, List.enum, List.mem_append] at hl
    rcases hl with (hl | hl) | hl
    · simp only [List.mem_cons, List.mem_singleton, List.not_mem_nil, or_false] at hl
      rcases hl with rfl | rfl | rfl | rfl | rfl | rfl <;> decide
    · exact hno l hl
    · simp only [List.mem_singleton] at hl
      subst hl
      decide

/-- C12, as amended: for every shortlist of exactly 2 entries whose names,
availability tags and reasons hold no line break, the text built by
`exportEmailText` has exactly 6 + 2*3 + 1 = 13 lines. -/
theorem export_two_entries_line_count (shortlist : List Candidate)
    (h2 : shortlist.length = 2) (h : ∀ c ∈ shortlist, NoLineBreak c) :
    lineCount (exportEmailText shortlist) = 6 + 2 * 3 + 1 ∧
    lineCount (exportEmailText shortlist) = 13 := by
  rw [lineCount_exportEmailText shortlist h, h2]
  exact ⟨rfl, rfl⟩

/-- Witness for C12 as amended: a shortlist of two entries, one of them without name
and without availability. -/
theorem export_two_entries_line_count_witness :
    lineCount (exportEmailText anotherShortlistOfTwo) = 13 :=
  (export_two_entries_line_count anotherShortlistOfTwo rfl (by decide)).2

/-- Counterexample to C12 as stated: a shortlist of two entries without line breaks
whose exported text has 13 lines, not 5 + 2*3 + 1 = 12. -/
theorem export_two_entries_not_twelve :
    shortlistOfTwo.length = 2 ∧
    (∀ c ∈ shortlistOfTwo, NoLineBreak c) ∧
    (emailLines shortlistOfTwo).length = 13 ∧
    lineCount (exportEmailText shortlistOfTwo) = 13 ∧
    lineCount (exportEmailText shortlistOfTwo) ≠ 5 + 2 * 3 + 1 := by
  refine ⟨rfl, by decide, by decide, by decide, by decide⟩

end CandidateDashboard
